import Mathlib

/-!
Verification development for the `ai_photos_assistant` backend.

The Python sources (`backend/photo_quality_checker.py`, `backend/semantic_search.py`,
`backend/main.py`, `backend/config.py`) are shallowly embedded below.  External numeric
primitives (image decode, Laplacian variance, histogram ratios, CLIP embeddings, the
Chroma vector store) are modelled as abstract inputs, exactly at the interface the
Python code consumes them; every piece of control flow and arithmetic that the code
itself performs is translated directly.  Python floats are modelled by rationals
(`ℚ`) and Python's `int(x)` truncation of non-negative values by natural floor
division; concrete counterexamples are chosen at inputs where binary floating point
evaluates these expressions exactly, so they transfer to the float semantics.
-/

namespace PhotoAssistant

/-! ## Quality checker (`backend/photo_quality_checker.py`)

`cv2.imread` + resizing + the Laplacian / histogram arithmetic are external
primitives; a decoded image is represented by the three derived metrics the
checker actually consumes.  A decode failure (`cv2.imread` returning `None`, or an
exception caught in `_get_gray_image`) is `Option.none`. -/

structure CheckerConfig where
  blur_threshold : ℚ
  overexposure_threshold : ℚ
  underexposure_threshold : ℚ
deriving DecidableEq

/-- Default thresholds from `backend/config.py`:
`BLUR_THRESHOLD = 30.0`, `OVEREXPOSURE_THRESHOLD = 0.95`, `UNDEREXPOSURE_THRESHOLD = 0.05`. -/
def defaultConfig : CheckerConfig :=
  { blur_threshold := 30
    overexposure_threshold := 95 / 100
    underexposure_threshold := 5 / 100 }

/-- The numbers `detect_blur` / `detect_exposure` read off a decoded grayscale image:
`np.var(laplacian)`, `np.sum(hist[60:]) / total_pixels`, `np.sum(hist[:4]) / total_pixels`. -/
structure GrayMetrics where
  blurScore : ℚ
  overexposedRatio : ℚ
  underexposedRatio : ℚ
deriving DecidableEq

/-- Result dictionary of `PhotoQualityChecker.detect_blur`.  On decode failure the
code returns only `{"is_defective": False, "defect_type": None}` (no `"score"` key),
modelled by `score = none`. -/
structure BlurResult where
  score : Option ℚ
  is_defective : Bool
  defect_type : Option String
deriving DecidableEq

/-- Result dictionary of `PhotoQualityChecker.detect_exposure`; on decode failure the
ratio keys are absent (`none`). -/
structure ExposureResult where
  overexposed_ratio : Option ℚ
  underexposed_ratio : Option ℚ
  is_defective : Bool
  defect_type : Option String
deriving DecidableEq

/-- Result dictionary of `PhotoQualityChecker.detect_closed_eyes` (a stub). -/
structure EyesResult where
  closed_eyes_count : Nat
  is_defective : Bool
  defect_type : Option String
deriving DecidableEq

/-- `PhotoQualityChecker.detect_blur`. -/
def detect_blur (cfg : CheckerConfig) (decode : String → Option GrayMetrics)
    (image_path : String) : BlurResult :=
  match decode image_path with
  | none => { score := none, is_defective := false, defect_type := none }
  | some g =>
      let is_blurry : Bool := decide (g.blurScore < cfg.blur_threshold)
      { score := some g.blurScore
        is_defective := is_blurry
        defect_type := if is_blurry then some "blur" else none }

/-- `PhotoQualityChecker.detect_exposure`. -/
def detect_exposure (cfg : CheckerConfig) (decode : String → Option GrayMetrics)
    (image_path : String) : ExposureResult :=
  match decode image_path with
  | none =>
      { overexposed_ratio := none, underexposed_ratio := none
        is_defective := false, defect_type := none }
  | some g =>
      let is_overexposed : Bool := decide (g.overexposedRatio > cfg.overexposure_threshold)
      let is_underexposed : Bool := decide (g.underexposedRatio > cfg.underexposure_threshold)
      { overexposed_ratio := some g.overexposedRatio
        underexposed_ratio := some g.underexposedRatio
        is_defective := is_overexposed || is_underexposed
        defect_type :=
          if is_overexposed then some "overexposed"
          else if is_underexposed then some "underexposed"
          else none }

/-- `PhotoQualityChecker.detect_closed_eyes` — always not defective. -/
def detect_closed_eyes (_image_path : String) : EyesResult :=
  { closed_eyes_count := 0, is_defective := false, defect_type := none }

/-- The `"details"` sub-dictionary that `check_photo_quality` assembles. -/
structure QualityDetails where
  blur : BlurResult
  eyes : EyesResult
  exposure : ExposureResult
deriving DecidableEq

/-- A quality-report dictionary.  `details = none` models the literally empty
`"details": {}` of the worker-level fallback in `main.process_batch_photos`;
`check_photo_quality` itself always produces a populated (`some`) details value. -/
structure QualityReport where
  image_path : String
  is_defective : Bool
  defect_types : List String
  details : Option QualityDetails
deriving DecidableEq

/-- `PhotoQualityChecker.check_photo_quality`: runs the three detectors, ORs their
verdicts, and collects defect types in the source's append order
(blur, then eyes, then exposure). -/
def check_photo_quality (cfg : CheckerConfig) (decode : String → Option GrayMetrics)
    (image_path : String) : QualityReport :=
  let blur_result := detect_blur cfg decode image_path
  let exposure_result := detect_exposure cfg decode image_path
  let eyes_result := detect_closed_eyes image_path
  { image_path := image_path
    is_defective :=
      blur_result.is_defective || eyes_result.is_defective || exposure_result.is_defective
    defect_types :=
      blur_result.defect_type.toList ++ eyes_result.defect_type.toList ++
        exposure_result.defect_type.toList
    details := some { blur := blur_result, eyes := eyes_result, exposure := exposure_result } }

/-! ## Scanner and batch worker (`backend/main.py`) -/

/-- The extension list of `main.get_image_files`. -/
def image_extensions : List String :=
  [".jpg", ".jpeg", ".png", ".bmp", ".JPG", ".JPEG", ".PNG", ".BMP"]

/-- String-suffix test over the underlying character lists (the semantics of
`str.endswith` / a trailing glob literal). -/
def strEndsWith (s suffix : String) : Bool :=
  suffix.data.isSuffixOf s.data

/-- Whether `glob.glob(os.path.join(folder, "*" + ext))` matches a file: glob's `*`
wildcard is case-sensitive, so a file matches exactly when one of the listed
extension strings is a literal suffix of its path. -/
def matchesExtension (file : String) : Bool :=
  image_extensions.any (fun ext => strEndsWith file ext)

/-- `main.get_image_files`: per-extension glob results are concatenated,
de-duplicated through `set(...)`, and sorted.  A folder is modelled by the list of
file paths it contains. -/
def get_image_files (folder : List String) : List String :=
  List.insertionSort (· ≤ ·)
    (List.dedup (image_extensions.flatMap (fun ext => folder.filter (fun f => strEndsWith f ext))))

/-- `os.path.basename` for POSIX paths: the characters after the last `/`. -/
def basename (p : String) : String :=
  String.mk ((p.data.reverse.takeWhile (fun c => c ≠ '/')).reverse)

/-- `main.process_batch_photos`: `check` is the possibly-raising call to
`check_photo_quality` (`none` = an exception was caught); on failure the worker
appends the fallback record with empty defect list and literally empty details. -/
def process_batch_photos (check : String → Option QualityReport)
    (batch_paths : List String) : List QualityReport :=
  batch_paths.map fun path =>
    (check path).getD
      { image_path := path, is_defective := false, defect_types := [], details := none }

/-! ## Batch scheduling helpers (`main.background_processing`) -/

/-- `l[i:i+n]` chunking produced by `for i in range(0, len(l), n)`. -/
def chunks (n : Nat) : List α → List (List α)
  | [] => []
  | a :: l =>
      if hn : n = 0 then []
      else (a :: l).take n :: chunks n ((a :: l).drop n)
termination_by l => l.length
decreasing_by
  simp only [List.length_drop, List.length_cons]
  omega

/-- Python `range(0, stop, step)` for `step > 0`. -/
def pyRange (stop step : Nat) : List Nat :=
  (List.range ((stop + step - 1) / step)).map (· * step)

/-- `max(1, batch_size // MAX_WORKERS)` — the sub-batch size handed to the pool. -/
def sub_batch_size (batch_size max_workers : Nat) : Nat :=
  max 1 (batch_size / max_workers)

/-- The screening pass of `background_processing`: batches are taken in order; within
a batch the sub-batches are submitted to the worker pool and their result lists are
concatenated in `as_completed` order, modelled by an arbitrary `reorder` of the
sub-batch list (constrained to a permutation in the theorems). -/
def screenFolder (check : String → Option QualityReport) (photo_paths : List String)
    (batch_size max_workers : Nat)
    (reorder : List (List String) → List (List String)) : List QualityReport :=
  (chunks batch_size photo_paths).flatMap fun batch =>
    (reorder (chunks (sub_batch_size batch_size max_workers) batch)).flatMap
      (process_batch_photos check)

/-- One entry of the `"photos"` list in the published result. -/
structure PhotoSummary where
  image_path : String
  filename : String
  is_defective : Bool
  defect_types : List String
deriving DecidableEq

/-- The `result_data` payload assembled at the end of `background_processing`. -/
structure RunResult where
  total_photos : Nat
  bad_photos : Nat
  qualified_photos : Nat
  indexed_photos : Nat
  photos : List PhotoSummary
deriving DecidableEq

/-- Aggregation step of `background_processing`: `total` is the scan count,
`bad_photos` counts defective reports, `qualified_photos` is the length of the
non-defective path list, and `photos` carries one summary per report. -/
def buildRunResult (photo_paths : List String) (quality_results : List QualityReport)
    (indexed_count : Nat) : RunResult :=
  { total_photos := photo_paths.length
    bad_photos := (quality_results.filter (fun r => r.is_defective)).length
    qualified_photos := (quality_results.filter (fun r => !r.is_defective)).length
    indexed_photos := indexed_count
    photos := quality_results.map fun r =>
      { image_path := r.image_path
        filename := basename r.image_path
        is_defective := r.is_defective
        defect_types := r.defect_types } }

/-- Progress values written by the screening loop: for each batch start `i`,
`int(min(i + batch_size, total) / total * 100)`. -/
def screeningUpdates (total batch_size : Nat) : List Nat :=
  (pyRange total batch_size).map fun i => min (i + batch_size) total * 100 / total

/-- Progress values written by the indexing loop over the `qualified` list
(length `q`): for each chunk start `i`, `70 + int(min(i + sbs, q) / q * 30)`.
The update is skipped entirely when there are no qualified photos. -/
def indexingUpdates (q search_batch_size : Nat) : List Nat :=
  (pyRange q search_batch_size).map fun i =>
    70 + min (i + search_batch_size) q * 30 / q

/-- The full sequence of values written to the job's `progress` field during one
execution of `background_processing` over `total` scanned images of which `q`
qualify: `0` at task creation, `0` again by the `initializing` update, the per-batch
screening updates, the per-chunk indexing updates (only when `q ≠ 0`), and `100` at
completion.  A scan of zero images errors out after the initial zeros. -/
def progressTrace (total q batch_size search_batch_size : Nat) : List Nat :=
  0 :: 0 ::
    (if total = 0 then []
     else screeningUpdates total batch_size ++
       (if q = 0 then [] else indexingUpdates q search_batch_size) ++ [100])

/-- The sequence of values written to the job's `status` field by
`background_processing` on its normal path (no uncaught exception): `initializing`,
then either `error` (zero images found) or one `processing` write per screening
batch followed by `completed`.  The indexing-loop updates touch only
`progress`/`message`, never `status`. -/
def statusTrace (total batch_size : Nat) : List String :=
  "initializing" ::
    (if total = 0 then ["error"]
     else (pyRange total batch_size).map (fun _ => "processing") ++ ["completed"])

/-! ## Job submission (`main.process_photos_async`) -/

/-- A value of the `processing_tasks` registry. -/
structure TaskState where
  status : String
  progress : Nat
  current : Nat
  total : Nat
  message : String
  result : Option RunResult
deriving DecidableEq

/-- The freshly created registry entry. -/
def pendingTask : TaskState :=
  { status := "pending", progress := 0, current := 0, total := 0
    message := "任务已创建，等待开始...", result := none }

structure ApiResponse where
  status : String
  message : String
deriving DecidableEq

/-- `main.process_photos_async`: validates the folder path *before* creating any
registry entry; on a missing folder it returns the error payload with the registry
untouched, otherwise it registers a `pending` task and schedules the background run. -/
def process_photos_async (folderExists : Bool) (tasks : List (String × TaskState))
    (task_id : String) : ApiResponse × List (String × TaskState) :=
  if folderExists then
    ({ status := "started", message := "照片处理已开始，请使用task_id查询进度" },
      tasks ++ [(task_id, pendingTask)])
  else
    ({ status := "error", message := "文件夹路径不存在！" }, tasks)

/-! ## Semantic search (`backend/semantic_search.py`) -/

/-- Distance-to-similarity conversion in `search_photos`:
`similarity = max(0.0, min(1.0, 1.0 - distance / 2.0))`. -/
def similarityOfDistance (distance : ℚ) : ℚ :=
  max 0 (min 1 (1 - distance / 2))

structure SearchHit where
  rank : Nat
  similarity_score : ℚ
  path : String
  filename : String
deriving DecidableEq

/-- The result-assembly loop of `search_photos`, for a store reply whose metadata
and distance lists are aligned (as Chroma returns them): entry `idx` gets
`rank = idx + 1` and the converted similarity.  `path`/`filename` come from the
stored metadata. -/
def buildSearchResults (hits : List (String × String × ℚ)) : List SearchHit :=
  hits.enum.map fun h =>
    { rank := h.1 + 1
      similarity_score := similarityOfDistance h.2.2.2
      path := h.2.1
      filename := h.2.2.1 }

/-! ## Embedding indexer (`PhotoSemanticSearch.index_photos`) -/

/-- Metadata record stored with each embedding. -/
structure IndexMeta where
  path : String
  filename : String
  index : Nat
deriving DecidableEq

/-- One `(id, embedding, metadata)` triple handed to `collection.add`. -/
structure IndexEntry where
  id : String
  embedding : List ℚ
  meta : IndexMeta
deriving DecidableEq

/-- The external world `index_photos` interacts with: CLIP availability, the
file-existence check, the per-path embedding call (`none` = failure/unavailable),
and whether the single `collection.add` call at the end succeeds. -/
structure IndexEnv where
  clipAvailable : Bool
  fileExists : String → Bool
  getEmbedding : String → Option (List ℚ)
  addOk : Bool

/-- The degenerate-vector guard:
`all(abs(v) < 0.000001 for v in embedding[:10])`. -/
def epsilonDegenerate (embedding : List ℚ) : Bool :=
  (embedding.take 10).all fun v => decide (|v| < 1 / 1000000)

/-- Loop state of `index_photos`: the `indexed_filenames` set, the accumulated
`ids`/`embeddings`/`metadatas` triple (kept as entries, in append order), and the
two counters. -/
structure IndexLoopState where
  indexedFilenames : Finset String
  entries : List IndexEntry
  indexedCount : Nat
  failedCount : Nat

/-- One iteration of the `for idx, photo_path in enumerate(photo_paths)` body.
An absent file or a failed / falsy / degenerate embedding bumps `failed_count`;
a repeated filename is skipped silently; otherwise the entry
`(filename + "_" + idx, embedding, {path, filename, index})` is appended and the
filename recorded. -/
def indexStep (env : IndexEnv) (st : IndexLoopState) (idx : Nat)
    (photo_path : String) : IndexLoopState :=
  if env.fileExists photo_path = false then
    { st with failedCount := st.failedCount + 1 }
  else
    if basename photo_path ∈ st.indexedFilenames then st
    else
      match env.getEmbedding photo_path with
      | none => { st with failedCount := st.failedCount + 1 }
      | some [] => { st with failedCount := st.failedCount + 1 }
      | some (v :: vs) =>
          if epsilonDegenerate (v :: vs) then
            { st with failedCount := st.failedCount + 1 }
          else
            { st with
              indexedFilenames := insert (basename photo_path) st.indexedFilenames
              entries := st.entries ++
                [{ id := basename photo_path ++ "_" ++ toString idx
                   embedding := v :: vs
                   meta := { path := photo_path, filename := basename photo_path
                             index := idx } }]
              indexedCount := st.indexedCount + 1 }

/-- The enumerated loop of `index_photos`. -/
def indexLoop (env : IndexEnv) : Nat → IndexLoopState → List String → IndexLoopState
  | _, st, [] => st
  | idx, st, p :: ps => indexLoop env (idx + 1) (indexStep env st idx p) ps

/-- Initial loop state. -/
def indexInit : IndexLoopState :=
  { indexedFilenames := ∅, entries := [], indexedCount := 0, failedCount := 0 }

/-- `PhotoSemanticSearch.index_photos`, returning the reported count together with
the entries actually written to the vector store.  Empty input or an unavailable
CLIP model short-circuits to `0`; when the batched `collection.add` fails, the
`except` branch returns `0` and nothing is persisted.  (`clear_existing` only drops
the persisted collection beforehand; it does not affect the returned count.) -/
def index_photos (env : IndexEnv) (photo_paths : List String)
    (_clear_existing : Bool) : Nat × List IndexEntry :=
  if photo_paths = [] then (0, [])
  else if env.clipAvailable = false then (0, [])
  else
    let st := indexLoop env 0 indexInit photo_paths
    if st.entries = [] then (st.indexedCount, [])
    else if env.addOk then (st.indexedCount, st.entries)
    else (0, [])

/-- A successful, non-degenerate embedding — the condition under which the loop
body actually indexes a fresh filename. -/
def goodEmbedding : Option (List ℚ) → Bool
  | none => false
  | some [] => false
  | some (v :: vs) => !epsilonDegenerate (v :: vs)

/-- What is true of every entry the loop appends: its file existed, its embedding
is the (truthy, non-degenerate) provider output for its path, and its stored
filename is the basename of its path. -/
def GoodEntry (env : IndexEnv) (e : IndexEntry) : Prop :=
  env.fileExists e.meta.path = true ∧
  env.getEmbedding e.meta.path = some e.embedding ∧
  e.embedding ≠ [] ∧
  epsilonDegenerate e.embedding = false ∧
  e.meta.filename = basename e.meta.path

/-- A concrete indexing environment: CLIP available, every file present, every
embedding the non-degenerate vector `[1]`, store writes succeeding. -/
def env5 : IndexEnv :=
  { clipAvailable := true
    fileExists := fun _ => true
    getEmbedding := fun _ => some [1]
    addOk := true }

/-- Five qualified photo paths of which two share the basename `a.jpg`. -/
def paths5 : List String :=
  ["d1/a.jpg", "d1/b.jpg", "d2/a.jpg", "d1/c.jpg", "d1/d.jpg"]

/-! ## Theorems -/

/-- On the store's distance range the clamp is the identity. -/
theorem similarityOfDistance_eq_of_mem_range (d : ℚ) (h0 : 0 ≤ d) (h2 : d ≤ 2) :
    similarityOfDistance d = 1 - d / 2 := by
  unfold similarityOfDistance
  rw [min_eq_right (by linarith), max_eq_right (by linarith)]

/-- C3: every distance returned by the vector store is converted through
`clamp(1 - d/2, 0, 1)`; on `[0, 2]` this conversion is strictly decreasing, maps
`0` to `1` and `2` to `0`, and every emitted `similarity_score` lies in `[0, 1]`. -/
theorem search_similarity_spec :
    (∀ d₁ d₂ : ℚ, 0 ≤ d₁ → d₁ < d₂ → d₂ ≤ 2 →
      similarityOfDistance d₂ < similarityOfDistance d₁) ∧
    similarityOfDistance 0 = 1 ∧
    similarityOfDistance 2 = 0 ∧
    ∀ (hits : List (String × String × ℚ)) (h : SearchHit),
      h ∈ buildSearchResults hits → 0 ≤ h.similarity_score ∧ h.similarity_score ≤ 1 := by
  refine ⟨?_, by norm_num [similarityOfDistance], by norm_num [similarityOfDistance], ?_⟩
  · intro d₁ d₂ h0 hlt h2
    rw [similarityOfDistance_eq_of_mem_range d₁ h0 (by linarith),
      similarityOfDistance_eq_of_mem_range d₂ (by linarith) h2]
    linarith
  · intro hits h hmem
    simp only [buildSearchResults, List.mem_map] at hmem
    obtain ⟨x, -, rfl⟩ := hmem
    constructor
    · exact le_max_left 0 _
    · exact max_le (by norm_num) (min_le_left 1 _)

/-- Witness for `search_similarity_spec` at concrete inputs. -/
theorem search_similarity_spec_witness :
    similarityOfDistance 1 < similarityOfDistance (1 / 2) ∧
    (0 ≤ (⟨1, similarityOfDistance (3 / 2), "a.jpg", "a.jpg"⟩ : SearchHit).similarity_score ∧
      (⟨1, similarityOfDistance (3 / 2), "a.jpg", "a.jpg"⟩ : SearchHit).similarity_score ≤ 1) :=
  ⟨search_similarity_spec.1 (1 / 2) 1 (by norm_num) (by norm_num) (by norm_num),
   search_similarity_spec.2.2.2 [("a.jpg", "a.jpg", 3 / 2)] _ (by
    simp [buildSearchResults, List.enum, List.enumFrom])⟩

/-- Membership in the scanner's output. -/
theorem mem_get_image_files (folder : List String) (x : String) :
    x ∈ get_image_files folder ↔ x ∈ folder ∧ matchesExtension x = true := by
  unfold get_image_files
  rw [(List.perm_insertionSort _ _).mem_iff, List.mem_dedup, List.mem_flatMap]
  simp only [List.mem_filter, matchesExtension, List.any_eq_true]
  constructor
  · rintro ⟨ext, hext, hx, hsuf⟩
    exact ⟨hx, ext, hext, hsuf⟩
  · rintro ⟨hx, ext, hext, hsuf⟩
    exact ⟨ext, hext, hx, hsuf⟩

/-- The scanner's output is lexically sorted. -/
theorem sorted_get_image_files (folder : List String) :
    List.Sorted (· ≤ ·) (get_image_files folder) :=
  List.sorted_insertionSort _ _

/-- The scanner's output has no duplicates. -/
theorem nodup_get_image_files (folder : List String) :
    (get_image_files folder).Nodup :=
  (List.perm_insertionSort _ _).nodup_iff.mpr (List.nodup_dedup _)

/-- C4 counterexample: the claim says any capitalisation of a supported extension,
such as `.Jpg`, is matched; the source matches through case-sensitive glob patterns
over the 8 literal variants, so a folder containing only `photo.Jpg` scans to the
empty list. -/
theorem scanner_case_counterexample :
    get_image_files ["photo.Jpg"] = [] ∧ ¬ "photo.Jpg" ∈ get_image_files ["photo.Jpg"] := by
  constructor
  · rfl
  · rw [mem_get_image_files]
    decide

/-- C4 amended: the scanner matches exactly the fixed case-sensitive extension list
(all-lowercase and all-uppercase variants, mixed capitalisations excluded), removes
duplicates, sorts lexically, and is determined by the folder's membership alone. -/
theorem scanner_spec (folder : List String) :
    List.Sorted (· ≤ ·) (get_image_files folder) ∧
    (get_image_files folder).Nodup ∧
    (∀ x, x ∈ get_image_files folder ↔ x ∈ folder ∧ matchesExtension x = true) ∧
    ∀ folder' : List String, (∀ x, x ∈ folder ↔ x ∈ folder') →
      get_image_files folder = get_image_files folder' := by
  refine ⟨sorted_get_image_files folder, nodup_get_image_files folder,
    mem_get_image_files folder, ?_⟩
  intro folder' hmem
  apply List.eq_of_perm_of_sorted ?_ (sorted_get_image_files folder)
    (sorted_get_image_files folder')
  rw [List.perm_ext_iff_of_nodup (nodup_get_image_files folder) (nodup_get_image_files folder')]
  intro a
  rw [mem_get_image_files, mem_get_image_files, hmem a]

/-- Witness for `scanner_spec` at a concrete folder: two listings with the same
membership scan identically. -/
theorem scanner_spec_witness :
    get_image_files ["b.png", "a.jpg", "b.png"] = get_image_files ["a.jpg", "b.png", "a.jpg"] := by
  have h := scanner_spec ["b.png", "a.jpg", "b.png"]
  apply h.2.2.2 ["a.jpg", "b.png", "a.jpg"]
  intro x
  simp only [List.mem_cons, List.not_mem_nil, or_false]
  tauto

/-- C5: for a decodable image, `check_photo_quality` reports defective exactly when
one of the blur / exposure checks trips (the eyes stub never does), and
`defect_types` lists the triggered checks in the fixed order blur first, then the
exposure kind, with `overexposed` taking priority over `underexposed`; the eyes
entry never appears. -/
theorem quality_union_spec (cfg : CheckerConfig) (decode : String → Option GrayMetrics)
    (path : String) (g : GrayMetrics) (h : decode path = some g) :
    (check_photo_quality cfg decode path).is_defective =
      (decide (g.blurScore < cfg.blur_threshold) ||
        (decide (g.overexposedRatio > cfg.overexposure_threshold) ||
          decide (g.underexposedRatio > cfg.underexposure_threshold))) ∧
    (check_photo_quality cfg decode path).defect_types =
      (if g.blurScore < cfg.blur_threshold then ["blur"] else []) ++
        (if g.overexposedRatio > cfg.overexposure_threshold then ["overexposed"]
          else if g.underexposedRatio > cfg.underexposure_threshold then ["underexposed"]
          else []) ∧
    ¬ "closed_eyes" ∈ (check_photo_quality cfg decode path).defect_types := by
  by_cases hb : g.blurScore < cfg.blur_threshold <;>
    by_cases ho : g.overexposedRatio > cfg.overexposure_threshold <;>
      by_cases hu : g.underexposedRatio > cfg.underexposure_threshold <;>
        simp [check_photo_quality, detect_blur, detect_exposure, detect_closed_eyes, h,
          hb, ho, hu]

/-- Witness for `quality_union_spec`: a sharp but strongly overexposed photo is
defective with exactly the `overexposed` defect. -/
theorem quality_union_spec_witness :
    (check_photo_quality defaultConfig (fun _ => some ⟨100, 99 / 100, 0⟩) "x.jpg").is_defective
        = true ∧
    (check_photo_quality defaultConfig (fun _ => some ⟨100, 99 / 100, 0⟩) "x.jpg").defect_types
        = ["overexposed"] := by
  have h := quality_union_spec defaultConfig (fun _ => some ⟨100, 99 / 100, 0⟩) "x.jpg"
    ⟨100, 99 / 100, 0⟩ rfl
  refine ⟨?_, ?_⟩
  · rw [h.1]
    simp only [defaultConfig, Bool.or_eq_true, decide_eq_true_eq]
    norm_num
  · rw [h.2.1]
    norm_num [defaultConfig]

/-- C8 counterexample: the claim says a decode failure yields a report with *empty*
details; in the source, `check_photo_quality` on an unreadable image still builds a
three-entry details dictionary (the literally empty `details: {}` exists only in
the worker's exception fallback in `process_batch_photos`). -/
theorem decode_failure_details_counterexample :
    (check_photo_quality defaultConfig (fun _ => none) "broken.jpg").details ≠ none := by
  simp [check_photo_quality, detect_blur, detect_exposure, detect_closed_eyes]

/-- C8 amended: a decode failure never raises; `check_photo_quality` returns a
non-defective report with empty `defect_types` whose details hold the three
detector entries with no metric payloads (`score` and the exposure ratios absent);
the batch worker always yields exactly one report per input path, in order, so one
unreadable file never aborts a batch. -/
theorem decode_failure_fallback (cfg : CheckerConfig) (decode : String → Option GrayMetrics)
    (path : String) (h : decode path = none) :
    (check_photo_quality cfg decode path).is_defective = false ∧
    (check_photo_quality cfg decode path).defect_types = [] ∧
    (check_photo_quality cfg decode path).details =
      some { blur := { score := none, is_defective := false, defect_type := none }
             eyes := { closed_eyes_count := 0, is_defective := false, defect_type := none }
             exposure := { overexposed_ratio := none, underexposed_ratio := none
                           is_defective := false, defect_type := none } } ∧
    (∀ (check : String → Option QualityReport) (paths : List String),
      (process_batch_photos check paths).length = paths.length) ∧
    ∀ paths : List String,
      (process_batch_photos (fun p => some (check_photo_quality cfg decode p)) paths).map
        (fun r => r.image_path) = paths := by
  refine ⟨?_, ?_, ?_, ?_, ?_⟩
  · simp [check_photo_quality, detect_blur, detect_exposure, detect_closed_eyes, h]
  · simp [check_photo_quality, detect_blur, detect_exposure, detect_closed_eyes, h]
  · simp [check_photo_quality, detect_blur, detect_exposure, detect_closed_eyes, h]
  · intro check paths
    simp [process_batch_photos]
  · intro paths
    induction paths with
    | nil => rfl
    | cons a t ih =>
        simp only [process_batch_photos, List.map_cons] at ih ⊢
        exact congrArg (List.cons a) ih

/-- Witness for `decode_failure_fallback` on an always-failing decoder. -/
theorem decode_failure_fallback_witness :
    (check_photo_quality defaultConfig (fun _ => none) "bad.jpg").is_defective = false ∧
    (check_photo_quality defaultConfig (fun _ => none) "bad.jpg").defect_types = [] ∧
    (process_batch_photos (fun _ => none) ["bad.jpg", "ok.jpg"]).length = 2 := by
  have h := decode_failure_fallback defaultConfig (fun _ => none) "bad.jpg" rfl
  exact ⟨h.1, h.2.1, h.2.2.2.1 (fun _ => none) ["bad.jpg", "ok.jpg"]⟩

/-- C9 counterexample: the claim says submitting a non-existent folder produces a
job that transitions to `error`; in the source the handler rejects the request
*before* any registry entry exists — the error payload is returned and no job at
all is created. -/
theorem submit_missing_folder_counterexample :
    (process_photos_async false [] "t1").1.status = "error" ∧
    (process_photos_async false [] "t1").2 = [] :=
  ⟨rfl, rfl⟩

/-- C9 amended: submitting a non-existent folder returns the path-not-found error
payload and creates no job (hence no job ever reaches `processing` for it); inside
a background run, a scan yielding zero images is the only condition on the normal
path that sets the job's status to `error`. -/
theorem job_error_conditions (tasks : List (String × TaskState)) (tid : String)
    (total batch_size : Nat) :
    (process_photos_async false tasks tid).2 = tasks ∧
    (process_photos_async false tasks tid).1.status = "error" ∧
    (process_photos_async false tasks tid).1.message = "文件夹路径不存在！" ∧
    ("error" ∈ statusTrace total batch_size ↔ total = 0) ∧
    (total = 0 → statusTrace total batch_size = ["initializing", "error"]) ∧
    ¬ "processing" ∈ statusTrace 0 batch_size := by
  refine ⟨rfl, rfl, rfl, ?_, ?_, ?_⟩
  · by_cases h : total = 0 <;> simp [statusTrace, h]
  · intro h
    simp [statusTrace, h]
  · simp [statusTrace]

/-- Witness for `job_error_conditions` at concrete inputs. -/
theorem job_error_conditions_witness :
    (process_photos_async false [] "t1").2 = [] ∧
    statusTrace 0 10 = ["initializing", "error"] := by
  have h := job_error_conditions [] "t1" 0 10
  exact ⟨h.1, h.2.2.2.2.1 rfl⟩

/-- Ceiling bound: `a < (a / b + 1) * b`. -/
theorem lt_div_succ_mul (a b : ℕ) (hb : 0 < b) : a < (a / b + 1) * b := by
  have h1 := Nat.div_add_mod a b
  have h2 : a % b < b := Nat.mod_lt _ hb
  have h3 : (a / b + 1) * b = b * (a / b) + b := by ring
  omega

/-- A map of a monotone function over `range` is a non-decreasing chain. -/
theorem chain'_le_map_range {g : ℕ → ℕ} (hg : Monotone g) (n : ℕ) :
    List.Chain' (· ≤ ·) ((List.range n).map g) := by
  rw [List.chain'_map]
  cases n with
  | zero => simp
  | succ m =>
      rw [List.chain'_range_succ]
      intro i _
      exact hg (Nat.le_succ i)

/-- The screening updates as a map over `range`. -/
theorem screeningUpdates_eq (total bs : Nat) :
    screeningUpdates total bs =
      (List.range ((total + bs - 1) / bs)).map
        (fun k => min (k * bs + bs) total * 100 / total) := by
  rw [screeningUpdates, pyRange, List.map_map]
  rfl

/-- The indexing updates as a map over `range`. -/
theorem indexingUpdates_eq (q sbs : Nat) :
    indexingUpdates q sbs =
      (List.range ((q + sbs - 1) / sbs)).map
        (fun k => 70 + min (k * sbs + sbs) q * 30 / q) := by
  rw [indexingUpdates, pyRange, List.map_map]
  rfl

/-- The per-batch screening progress value is monotone in the batch start. -/
theorem screeningBody_mono (total bs : Nat) :
    Monotone (fun k => min (k * bs + bs) total * 100 / total) := by
  intro a b hab
  apply Nat.div_le_div_right
  apply mul_le_mul_right'
  exact min_le_min (Nat.add_le_add_right (mul_le_mul_right' hab bs) bs) le_rfl

/-- The per-chunk indexing progress value is monotone in the chunk start. -/
theorem indexingBody_mono (q sbs : Nat) :
    Monotone (fun k => 70 + min (k * sbs + sbs) q * 30 / q) := by
  intro a b hab
  apply Nat.add_le_add_left
  apply Nat.div_le_div_right
  apply mul_le_mul_right'
  exact min_le_min (Nat.add_le_add_right (mul_le_mul_right' hab sbs) sbs) le_rfl

/-- Every screening update is at most 100. -/
theorem screeningUpdates_le (total bs : Nat) (ht : 0 < total) :
    ∀ p ∈ screeningUpdates total bs, p ≤ 100 := by
  intro p hp
  rw [screeningUpdates_eq] at hp
  simp only [List.mem_map, List.mem_range] at hp
  obtain ⟨k, -, rfl⟩ := hp
  calc min (k * bs + bs) total * 100 / total
      ≤ total * 100 / total := Nat.div_le_div_right (mul_le_mul_right' (min_le_right _ _) 100)
    _ = 100 := by rw [Nat.mul_comm total 100, Nat.mul_div_cancel _ ht]

/-- Every indexing update is at most 100. -/
theorem indexingUpdates_le (q sbs : Nat) (hq : 0 < q) :
    ∀ p ∈ indexingUpdates q sbs, p ≤ 100 := by
  intro p hp
  rw [indexingUpdates_eq] at hp
  simp only [List.mem_map, List.mem_range] at hp
  obtain ⟨k, -, rfl⟩ := hp
  have h1 : min (k * sbs + sbs) q * 30 / q ≤ 30 := by
    calc min (k * sbs + sbs) q * 30 / q
        ≤ q * 30 / q := Nat.div_le_div_right (mul_le_mul_right' (min_le_right _ _) 30)
      _ = 30 := by rw [Nat.mul_comm q 30, Nat.mul_div_cancel _ hq]
  omega

/-- C2 counterexample: the claim says screening never sets progress above 70; on a
2-image folder with batch size 1 the second batch update writes `int(2/2*100) = 100`
(an exactly representable float computation, so this transfers to the source). -/
theorem screening_cap_counterexample :
    100 ∈ screeningUpdates 2 1 ∧ 70 < 100 := by
  decide

/-- C2 amended: after each screening batch, progress is
`floor(min(i + batchSize, total) / total * 100)` with *no* 70 cap: every update is
at most 100 and the final screening update is exactly 100. -/
theorem screening_progress_uncapped (total bs : Nat) (ht : 0 < total) (hbs : 0 < bs) :
    (∀ p ∈ screeningUpdates total bs, p ≤ 100) ∧
    (screeningUpdates total bs).getLast? = some 100 := by
  refine ⟨screeningUpdates_le total bs ht, ?_⟩
  rw [screeningUpdates_eq]
  have hn : (total + bs - 1) / bs = (total - 1) / bs + 1 := by
    have he : total + bs - 1 = (total - 1) + bs := by omega
    rw [he, Nat.add_div_right _ hbs]
  rw [hn, List.range_succ, List.map_append]
  simp only [List.map_cons, List.map_nil]
  rw [List.getLast?_concat]
  have hcov : total ≤ (total - 1) / bs * bs + bs := by
    have h4 := lt_div_succ_mul (total - 1) bs hbs
    have h5 : ((total - 1) / bs + 1) * bs = (total - 1) / bs * bs + bs := by ring
    omega
  rw [min_eq_right hcov, Nat.mul_comm total 100, Nat.mul_div_cancel _ ht]

/-- Witness for `screening_progress_uncapped`: on 2 images with batch size 1 the
final screening update is 100. -/
theorem screening_progress_uncapped_witness :
    (screeningUpdates 2 1).getLast? = some 100 :=
  (screening_progress_uncapped 2 1 (by decide) (by decide)).2

/-- C1 counterexample: the full progress sequence of a job over 2 scanned images,
both qualified, with batch size 1 and search batch size 1 is
`[0, 0, 50, 100, 85, 100, 100]` — the first indexing update (85) is smaller than the
last screening update (100), so progress is not monotonically non-decreasing.  All
the float expressions involved (`1/2*100`, `2/2*100`, `1/2*30`, `2/2*30`) are exact
in binary floating point, so the drop occurs in the source as well. -/
theorem progress_monotone_counterexample :
    ¬ List.Chain' (· ≤ ·) (progressTrace 2 2 1 1) := by
  intro hch
  have h : progressTrace 2 2 1 1 = [0, 0, 50, 100, 85, 100, 100] := rfl
  rw [h] at hch
  simp [List.chain'_cons, List.chain'_singleton] at hch

/-- C1 amended: progress is non-decreasing *within each phase* — the initial zeros,
the screening updates and the completion write form a non-decreasing sequence, and
the indexing updates followed by the completion write form a non-decreasing
sequence — but not across the screening→indexing boundary, where the uncapped
screening pass can reach 100 before indexing restarts at `70 + chunk share`. -/
theorem progress_monotone_per_phase (total q bs sbs : Nat)
    (ht : 0 < total) (hbs : 0 < bs) (hsbs : 0 < sbs) :
    progressTrace total q bs sbs =
      0 :: 0 :: (screeningUpdates total bs ++
        ((if q = 0 then [] else indexingUpdates q sbs) ++ [100])) ∧
    List.Chain' (· ≤ ·) (0 :: 0 :: (screeningUpdates total bs ++ [100])) ∧
    List.Chain' (· ≤ ·) (indexingUpdates q sbs ++ [100]) := by
  refine ⟨by simp [progressTrace, ht.ne', List.append_assoc], ?_, ?_⟩
  · apply List.chain'_cons'.mpr
    refine ⟨fun y _ => Nat.zero_le y, ?_⟩
    apply List.chain'_cons'.mpr
    refine ⟨fun y _ => Nat.zero_le y, ?_⟩
    apply List.chain'_append.mpr
    refine ⟨?_, List.chain'_singleton 100, ?_⟩
    · rw [screeningUpdates_eq]
      exact chain'_le_map_range (screeningBody_mono total bs) _
    · intro x hx y hy
      simp only [List.head?_cons, Option.mem_def, Option.some.injEq] at hy
      subst hy
      exact screeningUpdates_le total bs ht x (List.mem_of_getLast?_eq_some hx)
  · rcases Nat.eq_zero_or_pos q with h0 | hq
    · subst h0
      have hempty : indexingUpdates 0 sbs = [] := by
        rw [indexingUpdates_eq]
        have : (0 + sbs - 1) / sbs = 0 := Nat.div_eq_of_lt (by omega)
        rw [this]
        rfl
      rw [hempty]
      exact List.chain'_singleton 100
    · apply List.chain'_append.mpr
      refine ⟨?_, List.chain'_singleton 100, ?_⟩
      · rw [indexingUpdates_eq]
        exact chain'_le_map_range (indexingBody_mono q sbs) _
      · intro x hx y hy
        simp only [List.head?_cons, Option.mem_def, Option.some.injEq] at hy
        subst hy
        exact indexingUpdates_le q sbs hq x (List.mem_of_getLast?_eq_some hx)

/-- Witness for `progress_monotone_per_phase` at the counterexample's parameters. -/
theorem progress_monotone_per_phase_witness :
    List.Chain' (· ≤ ·) (0 :: 0 :: (screeningUpdates 2 1 ++ [100])) ∧
    List.Chain' (· ≤ ·) (indexingUpdates 2 1 ++ [100]) := by
  have h := progress_monotone_per_phase 2 2 1 1 (by decide) (by decide) (by decide)
  exact ⟨h.2.1, h.2.2⟩

/-- Characterisation of a truthy, non-degenerate embedding result. -/
theorem goodEmbedding_iff (o : Option (List ℚ)) :
    goodEmbedding o = true ↔
      ∃ v vs, o = some (v :: vs) ∧ epsilonDegenerate (v :: vs) = false := by
  cases o with
  | none => simp [goodEmbedding]
  | some l =>
      cases l with
      | nil => simp [goodEmbedding]
      | cons v vs =>
          simp only [goodEmbedding, Bool.not_eq_true', Option.some.injEq]
          constructor
          · intro h
            exact ⟨v, vs, rfl, h⟩
          · rintro ⟨v', vs', heq, h⟩
            cases heq
            exact h

/-- Unfolding of the enumerated loop. -/
theorem indexLoop_cons (env : IndexEnv) (idx : Nat) (st : IndexLoopState)
    (p : String) (t : List String) :
    indexLoop env idx st (p :: t) = indexLoop env (idx + 1) (indexStep env st idx p) t :=
  rfl

/-- A repeated filename is skipped without touching the state. -/
theorem indexStep_skip (env : IndexEnv) (st : IndexLoopState) (idx : Nat) (p : String)
    (hex : env.fileExists p = true) (hmem : basename p ∈ st.indexedFilenames) :
    indexStep env st idx p = st := by
  simp [indexStep, hex, hmem]

/-- A fresh filename with an existing file and a good embedding is appended. -/
theorem indexStep_add (env : IndexEnv) (st : IndexLoopState) (idx : Nat) (p : String)
    (v : ℚ) (vs : List ℚ)
    (hex : env.fileExists p = true) (hmem : ¬ basename p ∈ st.indexedFilenames)
    (hsome : env.getEmbedding p = some (v :: vs))
    (hdeg : epsilonDegenerate (v :: vs) = false) :
    indexStep env st idx p =
      { st with
        indexedFilenames := insert (basename p) st.indexedFilenames
        entries := st.entries ++
          [{ id := basename p ++ "_" ++ toString idx
             embedding := v :: vs
             meta := { path := p, filename := basename p, index := idx } }]
        indexedCount := st.indexedCount + 1 } := by
  simp [indexStep, hex, hmem, hsome, hdeg]

/-- Every branch of the loop body either leaves the filename set, entry list and
indexed count unchanged, or appends one well-formed entry for a fresh filename. -/
theorem indexStep_cases (env : IndexEnv) (st : IndexLoopState) (idx : Nat) (p : String) :
    ((indexStep env st idx p).indexedFilenames = st.indexedFilenames ∧
      (indexStep env st idx p).entries = st.entries ∧
      (indexStep env st idx p).indexedCount = st.indexedCount) ∨
    (∃ v vs,
      env.fileExists p = true ∧
      ¬ basename p ∈ st.indexedFilenames ∧
      env.getEmbedding p = some (v :: vs) ∧
      epsilonDegenerate (v :: vs) = false ∧
      indexStep env st idx p =
        { st with
          indexedFilenames := insert (basename p) st.indexedFilenames
          entries := st.entries ++
            [{ id := basename p ++ "_" ++ toString idx
               embedding := v :: vs
               meta := { path := p, filename := basename p, index := idx } }]
          indexedCount := st.indexedCount + 1 }) := by
  by_cases hex : env.fileExists p = true
  · by_cases hmem : basename p ∈ st.indexedFilenames
    · rw [indexStep_skip env st idx p hex hmem]
      exact Or.inl ⟨rfl, rfl, rfl⟩
    · cases hsome : env.getEmbedding p with
      | none =>
          left
          simp [indexStep, hex, hmem, hsome]
      | some l =>
          cases l with
          | nil =>
              left
              simp [indexStep, hex, hmem, hsome]
          | cons v vs =>
              by_cases hdeg : epsilonDegenerate (v :: vs) = true
              · left
                simp [indexStep, hex, hmem, hsome, hdeg]
              · right
                have hdeg' : epsilonDegenerate (v :: vs) = false := by
                  revert hdeg
                  cases epsilonDegenerate (v :: vs) <;> simp
                exact ⟨v, vs, hex, hmem, rfl, hdeg',
                  indexStep_add env st idx p v vs hex hmem hsome hdeg'⟩
  · have hex' : env.fileExists p = false := by
      revert hex
      cases env.fileExists p <;> simp
    left
    simp [indexStep, hex']

/-- The loop keeps the reported count equal to the number of accumulated entries. -/
theorem indexLoop_count_eq_length (env : IndexEnv) :
    ∀ (ps : List String) (idx : Nat) (st : IndexLoopState),
      st.indexedCount = st.entries.length →
      (indexLoop env idx st ps).indexedCount = (indexLoop env idx st ps).entries.length := by
  intro ps
  induction ps with
  | nil => intro idx st h; exact h
  | cons p t ih =>
      intro idx st h
      rw [indexLoop_cons]
      apply ih
      rcases indexStep_cases env st idx p with ⟨-, he, hc⟩ | ⟨v, vs, -, -, -, -, hstep⟩
      · rw [hc, he, h]
      · rw [hstep]
        simp [h]

/-- Every entry the loop accumulates beyond its starting entries is well formed. -/
theorem indexLoop_entries_good (env : IndexEnv) :
    ∀ (ps : List String) (idx : Nat) (st : IndexLoopState),
      ∀ e ∈ (indexLoop env idx st ps).entries, e ∈ st.entries ∨ GoodEntry env e := by
  intro ps
  induction ps with
  | nil => intro idx st e he; exact Or.inl he
  | cons p t ih =>
      intro idx st e he
      rw [indexLoop_cons] at he
      rcases ih (idx + 1) (indexStep env st idx p) e he with hin | hgood
      · rcases indexStep_cases env st idx p with ⟨-, he2, -⟩ | ⟨v, vs, hex, -, hsome, hdeg, hstep⟩
        · rw [he2] at hin
          exact Or.inl hin
        · rw [hstep] at hin
          rcases List.mem_append.mp hin with h1 | h2
          · exact Or.inl h1
          · right
            have he0 := List.mem_singleton.mp h2
            subst he0
            exact ⟨hex, hsome, List.cons_ne_nil v vs, hdeg, rfl⟩
      · exact Or.inr hgood

/-- Under an all-good input list, the loop's count grows by the number of distinct
basenames not yet recorded. -/
theorem indexLoop_count_allgood (env : IndexEnv) :
    ∀ (ps : List String) (idx : Nat) (st : IndexLoopState),
      (∀ p ∈ ps, env.fileExists p = true ∧ goodEmbedding (env.getEmbedding p) = true) →
      (indexLoop env idx st ps).indexedCount =
        st.indexedCount + ((ps.map basename).toFinset \ st.indexedFilenames).card := by
  intro ps
  induction ps with
  | nil => intro idx st _; simp [indexLoop]
  | cons p t ih =>
      intro idx st hgood
      obtain ⟨hex, hemb⟩ := hgood p (List.mem_cons_self p t)
      obtain ⟨v, vs, hsome, hdeg⟩ := (goodEmbedding_iff _).mp hemb
      have htail : ∀ x ∈ t, env.fileExists x = true ∧ goodEmbedding (env.getEmbedding x) = true :=
        fun x hx => hgood x (List.mem_cons_of_mem p hx)
      rw [indexLoop_cons]
      by_cases hmem : basename p ∈ st.indexedFilenames
      · rw [indexStep_skip env st idx p hex hmem, ih (idx + 1) st htail]
        congr 2
        rw [List.map_cons, List.toFinset_cons, Finset.insert_sdiff_of_mem _ hmem]
      · rw [indexStep_add env st idx p v vs hex hmem hsome hdeg,
          ih (idx + 1) _ htail]
        simp only [List.map_cons, List.toFinset_cons]
        have h1 : insert (basename p) (t.map basename).toFinset \ st.indexedFilenames =
            insert (basename p) ((t.map basename).toFinset \ st.indexedFilenames) :=
          Finset.insert_sdiff_of_not_mem _ hmem
        have h2 : (t.map basename).toFinset \ insert (basename p) st.indexedFilenames =
            ((t.map basename).toFinset \ st.indexedFilenames).erase (basename p) :=
          Finset.sdiff_insert _ _ _
        have h3 : (insert (basename p) ((t.map basename).toFinset \ st.indexedFilenames)).card =
            (((t.map basename).toFinset \ st.indexedFilenames).erase (basename p)).card + 1 := by
          have hins : insert (basename p) ((t.map basename).toFinset \ st.indexedFilenames) =
              insert (basename p)
                (((t.map basename).toFinset \ st.indexedFilenames).erase (basename p)) := by
            ext x
            by_cases hx : x = basename p <;> simp [hx]
          rw [hins, Finset.card_insert_of_not_mem (Finset.not_mem_erase _ _)]
        rw [h1, h2, h3]
        omega

/-- Under an all-good input list, every accumulated entry records the position of
the *first* occurrence of its filename. -/
theorem indexLoop_first_occ (env : IndexEnv) :
    ∀ (ps : List String) (idx : Nat) (st : IndexLoopState),
      (∀ p ∈ ps, env.fileExists p = true ∧ goodEmbedding (env.getEmbedding p) = true) →
      ∀ e ∈ (indexLoop env idx st ps).entries,
        e ∈ st.entries ∨
        (¬ e.meta.filename ∈ st.indexedFilenames ∧
          ps.findIdx (fun x => basename x == e.meta.filename) < ps.length ∧
          idx + ps.findIdx (fun x => basename x == e.meta.filename) = e.meta.index) := by
  intro ps
  induction ps with
  | nil => intro idx st _ e he; exact Or.inl he
  | cons p t ih =>
      intro idx st hgood e he
      obtain ⟨hex, hemb⟩ := hgood p (List.mem_cons_self p t)
      obtain ⟨v, vs, hsome, hdeg⟩ := (goodEmbedding_iff _).mp hemb
      have htail : ∀ x ∈ t, env.fileExists x = true ∧ goodEmbedding (env.getEmbedding x) = true :=
        fun x hx => hgood x (List.mem_cons_of_mem p hx)
      rw [indexLoop_cons] at he
      by_cases hmem : basename p ∈ st.indexedFilenames
      · rw [indexStep_skip env st idx p hex hmem] at he
        rcases ih (idx + 1) st htail e he with hin | ⟨hnot, hlt, hidx⟩
        · exact Or.inl hin
        · right
          have hne : (basename p == e.meta.filename) = false := by
            apply beq_eq_false_iff_ne.mpr
            intro hcontra
            exact hnot (hcontra ▸ hmem)
          refine ⟨hnot, ?_, ?_⟩
          · rw [List.findIdx_cons, hne]
            simpa using hlt
          · rw [List.findIdx_cons, hne]
            simp only [cond_false]
            omega
      · rw [indexStep_add env st idx p v vs hex hmem hsome hdeg] at he
        rcases ih (idx + 1) _ htail e he with hin | ⟨hnot, hlt, hidx⟩
        · rcases List.mem_append.mp hin with h1 | h2
          · exact Or.inl h1
          · right
            have he0 := List.mem_singleton.mp h2
            subst he0
            have hbeq : (basename p ==
                (IndexMeta.mk p (basename p) idx).filename) = true := by
              simp
            refine ⟨hmem, ?_, ?_⟩
            · rw [List.findIdx_cons]
              simp
            · rw [List.findIdx_cons]
              simp
        · right
          have hnotp : ¬ e.meta.filename = basename p := by
            intro hcontra
            exact hnot (by simp [hcontra])
          have hnotst : ¬ e.meta.filename ∈ st.indexedFilenames := by
            intro hcontra
            exact hnot (by simp [hcontra])
          have hne : (basename p == e.meta.filename) = false :=
            beq_eq_false_iff_ne.mpr (fun hcontra => hnotp hcontra.symm)
          refine ⟨hnotst, ?_, ?_⟩
          · rw [List.findIdx_cons, hne]
            simpa using hlt
          · rw [List.findIdx_cons, hne]
            simp only [cond_false]
            omega

/-- C6: under an all-good environment, `index_photos` indexes exactly one entry per
distinct basename, and every stored entry's recorded index is the position of the
first occurrence of its filename in the input list. -/
theorem index_dedup_first_wins (env : IndexEnv) (paths : List String)
    (hclip : env.clipAvailable = true)
    (hgood : ∀ p ∈ paths, env.fileExists p = true ∧ goodEmbedding (env.getEmbedding p) = true)
    (hadd : env.addOk = true) (hne : paths ≠ []) :
    (index_photos env paths true).1 = ((paths.map basename).toFinset).card ∧
    ∀ e ∈ (index_photos env paths true).2,
      paths.findIdx (fun x => basename x == e.meta.filename) = e.meta.index := by
  have hcount : (indexLoop env 0 indexInit paths).indexedCount =
      ((paths.map basename).toFinset).card := by
    rw [indexLoop_count_allgood env paths 0 indexInit hgood]
    simp [indexInit]
  have hclip' : ¬ env.clipAvailable = false := by rw [hclip]; simp
  unfold index_photos
  rw [if_neg hne, if_neg hclip']
  by_cases hent : (indexLoop env 0 indexInit paths).entries = []
  · rw [if_pos hent]
    exact ⟨hcount, by simp⟩
  · rw [if_neg hent, if_pos hadd]
    refine ⟨hcount, ?_⟩
    intro e he
    rcases indexLoop_first_occ env paths 0 indexInit hgood e he with hin | ⟨-, -, hidx⟩
    · simp [indexInit] at hin
    · simpa using hidx

/-- Witness for `index_dedup_first_wins`: five qualified photos of which two share
a filename index to exactly four entries (Scenario B). -/
theorem index_dedup_first_wins_witness :
    (index_photos env5 paths5 true).1 = 4 := by
  have hgood : ∀ p ∈ paths5,
      env5.fileExists p = true ∧ goodEmbedding (env5.getEmbedding p) = true := by
    intro p _
    refine ⟨rfl, ?_⟩
    simp only [env5, goodEmbedding, epsilonDegenerate, List.take, List.all_cons, List.all_nil,
      Bool.not_eq_true', Bool.and_true, decide_eq_false_iff_not]
    norm_num
  have h := index_dedup_first_wins env5 paths5 rfl hgood rfl (by simp [paths5])
  rw [h.1]
  rfl

/-- C7: `index_photos` always returns the number of entries actually written — `0`
whenever CLIP is unavailable or the store write fails — and every written entry
carries a truthy, non-degenerate embedding for a file that existed (null and
degenerate embeddings are skipped, never propagated). -/
theorem index_photos_total_spec (env : IndexEnv) (paths : List String) (c : Bool) :
    (index_photos env paths c).1 = (index_photos env paths c).2.length ∧
    (env.clipAvailable = false → (index_photos env paths c).1 = 0) ∧
    (env.addOk = false → (index_photos env paths c).1 = 0) ∧
    ∀ e ∈ (index_photos env paths c).2,
      env.fileExists e.meta.path = true ∧
      env.getEmbedding e.meta.path = some e.embedding ∧
      e.embedding ≠ [] ∧ epsilonDegenerate e.embedding = false := by
  unfold index_photos
  by_cases hps : paths = []
  · rw [if_pos hps]
    simp
  · rw [if_neg hps]
    by_cases hclip : env.clipAvailable = false
    · rw [if_pos hclip]
      simp
    · rw [if_neg hclip]
      have hcl : (indexLoop env 0 indexInit paths).indexedCount =
          (indexLoop env 0 indexInit paths).entries.length :=
        indexLoop_count_eq_length env paths 0 indexInit rfl
      have hgoodE : ∀ e ∈ (indexLoop env 0 indexInit paths).entries, GoodEntry env e := by
        intro e he
        rcases indexLoop_entries_good env paths 0 indexInit e he with h | h
        · simp [indexInit] at h
        · exact h
      by_cases hent : (indexLoop env 0 indexInit paths).entries = []
      · rw [if_pos hent]
        have hzero : (indexLoop env 0 indexInit paths).indexedCount = 0 := by
          rw [hcl, hent]
          rfl
        exact ⟨by simp [hzero], fun _ => hzero, fun _ => hzero, by simp⟩
      · rw [if_neg hent]
        by_cases hadd : env.addOk = true
        · rw [if_pos hadd]
          refine ⟨hcl, ?_, ?_, ?_⟩
          · intro hc
            exact absurd hc hclip
          · intro hc
            rw [hadd] at hc
            cases hc
          · intro e he
            obtain ⟨g1, g2, g3, g4, -⟩ := hgoodE e he
            exact ⟨g1, g2, g3, g4⟩
        · rw [if_neg hadd]
          exact ⟨rfl, fun _ => rfl, fun _ => rfl, by simp⟩

/-- Witness for `index_photos_total_spec`: an unavailable provider indexes nothing,
and with a good environment the reported count equals the written entry count. -/
theorem index_photos_total_spec_witness :
    (index_photos
      { clipAvailable := false, fileExists := fun _ => true
        getEmbedding := fun _ => none, addOk := true } ["a.jpg"] false).1 = 0 ∧
    (index_photos env5 paths5 false).1 = (index_photos env5 paths5 false).2.length := by
  constructor
  · exact (index_photos_total_spec
      { clipAvailable := false, fileExists := fun _ => true
        getEmbedding := fun _ => none, addOk := true } ["a.jpg"] false).2.1 rfl
  · exact (index_photos_total_spec env5 paths5 false).1

/-- Chunking with a positive size loses nothing: the chunks flatten back to the
original list. -/
theorem chunks_flatten {α : Type} (n : Nat) (hn : 0 < n) :
    ∀ l : List α, (chunks n l).flatten = l := by
  have key : ∀ (k : Nat) (l : List α), l.length ≤ k → (chunks n l).flatten = l := by
    intro k
    induction k with
    | zero =>
        intro l hl
        cases l with
        | nil => simp [chunks]
        | cons a t => simp at hl
    | succ k ih =>
        intro l hl
        cases l with
        | nil => simp [chunks]
        | cons a t =>
            rw [chunks, dif_neg hn.ne', List.flatten_cons,
              ih ((a :: t).drop n)
                (by simp only [List.length_cons] at hl
                    simp only [List.length_drop, List.length_cons]
                    omega)]
            exact List.take_append_drop n (a :: t)
  intro l
  exact key l.length l le_rfl

/-- The worker emits reports whose `image_path` fields are exactly the sub-batch,
in order. -/
theorem process_batch_map_path (check : String → Option QualityReport)
    (himg : ∀ p r, check p = some r → r.image_path = p) :
    ∀ batch, (process_batch_photos check batch).map (fun r => r.image_path) = batch := by
  intro batch
  induction batch with
  | nil => rfl
  | cons a t ih =>
      simp only [process_batch_photos, List.map_cons] at ih ⊢
      cases hc : check a with
      | none =>
          simpa using ih
      | some r =>
          have hr := himg a r hc
          simp only [Option.getD_some, hr]
          simpa using ih

/-- Pointwise permutations flatten to a permutation. -/
theorem flatten_map_perm {α : Type} {f : List α → List α} (L : List (List α))
    (hf : ∀ b ∈ L, List.Perm (f b) b) : List.Perm ((L.map f).flatten) L.flatten := by
  induction L with
  | nil => exact List.Perm.refl _
  | cons a t ih =>
      simp only [List.map_cons, List.flatten_cons]
      exact (hf a (List.mem_cons_self a t)).append
        (ih fun b hb => hf b (List.mem_cons_of_mem a hb))

/-- Splitting a list by a boolean predicate partitions its length. -/
theorem length_filter_add_length_filter_not {α : Type} (p : α → Bool) (l : List α) :
    (l.filter p).length + (l.filter (fun x => !p x)).length = l.length := by
  induction l with
  | nil => rfl
  | cons a t ih =>
      by_cases h : p a = true <;>
        simp [List.filter_cons, h] <;> omega

/-- The screening pass reports exactly the scanned paths (as a permutation, for any
`as_completed` interleaving of each batch's sub-batch results). -/
theorem screenFolder_map_path (check : String → Option QualityReport) (paths : List String)
    (bs ws : Nat) (reorder : List (List String) → List (List String))
    (hbs : 0 < bs) (hre : ∀ l, List.Perm (reorder l) l)
    (himg : ∀ p r, check p = some r → r.image_path = p) :
    List.Perm ((screenFolder check paths bs ws reorder).map (fun r => r.image_path)) paths := by
  have hsbs : 0 < sub_batch_size bs ws := le_max_left 1 _
  have inner : ∀ batch : List String,
      List.Perm (((reorder (chunks (sub_batch_size bs ws) batch)).flatMap
        (process_batch_photos check)).map (fun r => r.image_path)) batch := by
    intro batch
    rw [List.map_flatMap]
    have h1 : (reorder (chunks (sub_batch_size bs ws) batch)).flatMap
        (fun sub => (process_batch_photos check sub).map (fun r => r.image_path)) =
        (reorder (chunks (sub_batch_size bs ws) batch)).flatten := by
      rw [List.flatMap_def, List.map_congr_left
        (fun sub _ => process_batch_map_path check himg sub)]
      rw [List.map_id']
    rw [h1]
    have h2 : (chunks (sub_batch_size bs ws) batch).flatten = batch :=
      chunks_flatten _ hsbs batch
    have h2' := (hre (chunks (sub_batch_size bs ws) batch)).flatten
    rw [h2] at h2'
    exact h2'
  unfold screenFolder
  rw [List.map_flatMap, List.flatMap_def]
  have h3 : (chunks bs paths).flatten = paths := chunks_flatten _ hbs paths
  have h4 := flatten_map_perm (chunks bs paths) (fun b _ => inner b)
  rw [h3] at h4
  exact h4

/-- C10: in a completed run's published result the counters partition the scan:
`bad_photos + qualified_photos = total_photos`, `total_photos` is the number of
scanned paths, and the `photos` list holds exactly one summary per scanned path
(up to the worker pool's completion order), every worker failure contributing its
fallback record rather than dropping the path. -/
theorem result_partition_spec (check : String → Option QualityReport) (paths : List String)
    (bs ws idx : Nat) (reorder : List (List String) → List (List String))
    (hbs : 0 < bs) (hre : ∀ l, List.Perm (reorder l) l)
    (himg : ∀ p r, check p = some r → r.image_path = p) :
    (buildRunResult paths (screenFolder check paths bs ws reorder) idx).bad_photos +
      (buildRunResult paths (screenFolder check paths bs ws reorder) idx).qualified_photos =
      (buildRunResult paths (screenFolder check paths bs ws reorder) idx).total_photos ∧
    (buildRunResult paths (screenFolder check paths bs ws reorder) idx).total_photos =
      paths.length ∧
    (buildRunResult paths (screenFolder check paths bs ws reorder) idx).photos.length =
      paths.length ∧
    List.Perm ((buildRunResult paths (screenFolder check paths bs ws reorder) idx).photos.map
      (fun s => s.image_path)) paths := by
  have hperm := screenFolder_map_path check paths bs ws reorder hbs hre himg
  have hlen : (screenFolder check paths bs ws reorder).length = paths.length := by
    have h := hperm.length_eq
    simpa using h
  refine ⟨?_, rfl, ?_, ?_⟩
  · show ((screenFolder check paths bs ws reorder).filter (fun r => r.is_defective)).length +
        ((screenFolder check paths bs ws reorder).filter (fun r => !r.is_defective)).length =
        paths.length
    rw [length_filter_add_length_filter_not]
    exact hlen
  · simp only [buildRunResult, List.length_map]
    exact hlen
  · have h5 : (buildRunResult paths (screenFolder check paths bs ws reorder) idx).photos.map
        (fun s => s.image_path) =
        (screenFolder check paths bs ws reorder).map (fun r => r.image_path) := by
      simp only [buildRunResult, List.map_map]
      rfl
    rw [h5]
    exact hperm

/-- Witness for `result_partition_spec`: three paths, an always-failing checker
(every report is the worker fallback), batch size 2, two workers, identity
completion order. -/
theorem result_partition_spec_witness :
    (buildRunResult ["a", "b", "c"] (screenFolder (fun _ => none) ["a", "b", "c"] 2 2 id) 0).bad_photos +
      (buildRunResult ["a", "b", "c"] (screenFolder (fun _ => none) ["a", "b", "c"] 2 2 id) 0).qualified_photos =
      (buildRunResult ["a", "b", "c"] (screenFolder (fun _ => none) ["a", "b", "c"] 2 2 id) 0).total_photos ∧
    (buildRunResult ["a", "b", "c"] (screenFolder (fun _ => none) ["a", "b", "c"] 2 2 id) 0).total_photos = 3 := by
  have h := result_partition_spec (fun _ => none) ["a", "b", "c"] 2 2 0 id (by decide)
    (fun l => List.Perm.refl l) (by intro p r hc; simp at hc)
  exact ⟨h.1, h.2.1⟩

end PhotoAssistant
